import Mathlib

/-!
Verification of the chatgpt-mcp resilience layer.

The TypeScript sources are shallowly embedded here.  Text is modelled as
`List Char` (JS strings); DOM pages are modelled as records carrying, per
conversation turn, the raw text each extraction strategy would read together
with the boolean DOM facts the completion detector inspects (copy-button
presence, thinking-UI presence).  Browser effects (navigation, typing,
clicking) are suspension points that the claims under study do not depend on;
where an operation's state update is claimed, the update is embedded as an
explicit state-passing function.  JS regular expressions used by the code are
embedded as deterministic matchers (all the character classes involved are
disjoint, so greedy matching never backtracks).  The JS whitespace class is
modelled by its ASCII part, which covers every string the code manipulates.
-/

/-- JS whitespace (ASCII part): the class the regexes of chatgpt.ts use. -/
def isWS (c : Char) : Bool :=
  c == ' ' || c == '\t' || c == '\n' || c == '\r' || c == '\x0b' || c == '\x0c'

/-- Model of the JS replacement of every whitespace run by a single space,
from the final step of cleanText. -/
def collapseWS : List Char → List Char
  | [] => []
  | [c] => if isWS c then [' '] else [c]
  | c :: d :: rest =>
    if isWS c then
      if isWS d then collapseWS (d :: rest)
      else ' ' :: collapseWS (d :: rest)
    else c :: collapseWS (d :: rest)

/-- Removes trailing whitespace. -/
def dropTrailingWS : List Char → List Char
  | [] => []
  | c :: rest =>
    let r := dropTrailingWS rest
    if r = [] && isWS c then [] else c :: r

/-- Model of the JS String.trim. -/
def trimWS (t : List Char) : List Char :=
  dropTrailingWS (t.dropWhile isWS)

/-- Substring occurrence test: model of JS String.includes. -/
def occursIn (pat : List Char) : List Char → Bool
  | [] => pat.isEmpty
  | c :: rest => pat.isPrefixOf (c :: rest) || occursIn pat rest

/-- Removes the leftmost occurrence of a pattern: model of the JS
String.replace with a plain-string pattern and empty replacement. -/
def removeFirstOcc (pat : List Char) : List Char → List Char
  | [] => []
  | c :: rest =>
    if pat.isPrefixOf (c :: rest) then (c :: rest).drop pat.length
    else c :: removeFirstOcc pat rest

/-- Fuelled form of the while-loop of cleanText that replaces the first
occurrence until none remains.  Each round shortens the text by at least one
character when the (nonempty) pattern occurs, so text length is enough fuel. -/
def removeLoop (pat : List Char) : Nat → List Char → List Char
  | 0, t => t
  | Nat.succ n, t => if occursIn pat t then removeLoop pat n (removeFirstOcc pat t) else t

/-- The while-loop of cleanText for one phrase. -/
def removeAllOcc (pat t : List Char) : List Char :=
  removeLoop pat t.length t

/-- Case-insensitive literal match at the front; returns the rest of the text
after the matched literal.  Model of a ci regex literal (ASCII case fold, as
in the literals the code uses). -/
def ciStart (pat : List Char) (t : List Char) : Option (List Char) :=
  match pat, t with
  | [], rest => some rest
  | _ :: _, [] => none
  | p :: ps, c :: cs => if p.toLower == c.toLower then ciStart ps cs else none

-- The literal UI-chrome phrase list of getLatestResponseText (chatgpt.ts).
def phrase01 : List Char := "ChatGPT said:".data
def phrase02 : List Char := "ChatGPT said".data
def phrase03 : List Char := "Pro thinking".data
def phrase04 : List Char := "Answer now".data
def phrase05 : List Char := "Extended thinking".data
def phrase06 : List Char := "Show thinking".data
def phrase07 : List Char := "Hide thinking".data
def phrase08 : List Char := "Reasoning".data
def phrase09 : List Char := "Thinking...".data
def phrase10 : List Char := "Thinking…".data
def phrase11 : List Char := "• ".data

def phrasesToRemove : List (List Char) :=
  [phrase01, phrase02, phrase03, phrase04, phrase05, phrase06, phrase07,
   phrase08, phrase09, phrase10, phrase11]

/-- The phrase-stripping for-loop of cleanText. -/
def stripPhrases (t : List Char) : List Char :=
  phrasesToRemove.foldl (fun acc p => removeAllOcc p acc) t

def thinkingWord : List Char := "Thinking".data

/-- Model of cleaned.replace(/^Thinking\s*\/i, ''). -/
def stripLeadingThinking (t : List Char) : List Char :=
  match ciStart thinkingWord t with
  | some rest => rest.dropWhile isWS
  | none => t

def proWord : List Char := "Pro".data
def thinkingLower : List Char := "thinking".data

/-- One attempted match of /Pro\s+thinking\s*•?\s*\/gi at the current
position; on success returns the text after the matched span. -/
def tryProThinking (t : List Char) : Option (List Char) :=
  match ciStart proWord t with
  | none => none
  | some r1 =>
    match r1 with
    | [] => none
    | c :: cs =>
      if isWS c then
        match ciStart thinkingLower (cs.dropWhile isWS) with
        | none => none
        | some r3 =>
          let r4 := r3.dropWhile isWS
          let r5 := match r4 with
            | d :: ds => if d == '•' then ds else r4
            | [] => r4
          some (r5.dropWhile isWS)
      else none

/-- Fuelled global replacement for /Pro\s+thinking\s*•?\s*\/gi: scan left to
right, removing every match (a match consumes at least twelve characters, so
text length is enough fuel). -/
def proThinkLoop : Nat → List Char → List Char
  | 0, t => t
  | Nat.succ n, t =>
    match t with
    | [] => []
    | c :: rest =>
      match tryProThinking (c :: rest) with
      | some r => proThinkLoop n r
      | none => c :: proThinkLoop n rest

/-- Model of cleaned.replace(/Pro\s+thinking\s*•?\s*\/gi, ''). -/
def proThinkRemoveAll (t : List Char) : List Char :=
  proThinkLoop t.length t

def secondWord : List Char := "second".data
def secWord : List Char := "sec".data

/-- Consume one optional trailing s (case-insensitively). -/
def dropOptS : List Char → List Char
  | c :: rest => if c.toLower == 's' then rest else c :: rest
  | [] => []

/-- The (seconds?|secs?) alternation, case-insensitive, first branch first. -/
def matchSecondsAlt (t : List Char) : Option (List Char) :=
  match ciStart secondWord t with
  | some r => some (dropOptS r)
  | none =>
    match ciStart secWord t with
    | some r => some (dropOptS r)
    | none => none

/-- \d+ at the front: one digit then greedily the rest. -/
def digitStart : List Char → Option (List Char)
  | [] => none
  | c :: rest => if c.isDigit then some (rest.dropWhile Char.isDigit) else none

/-- The span matched by /^\d+\s*(seconds?|secs?)\s*\/i, as the text following
it, if the regex matches. -/
def timerTail (t : List Char) : Option (List Char) :=
  match digitStart t with
  | none => none
  | some r1 =>
    match matchSecondsAlt (r1.dropWhile isWS) with
    | none => none
    | some r3 => some (r3.dropWhile isWS)

/-- Model of cleaned.replace(/^\d+\s*(seconds?|secs?)\s*\/i, ''). -/
def stripLeadingTimer (t : List Char) : List Char :=
  match timerTail t with
  | some r => r
  | none => t

/-- Whether the leading-timer regex matches at all. -/
def timerMatches (t : List Char) : Bool :=
  (timerTail t).isSome

/-- The cleaning pass of getLatestResponseText (chatgpt.ts, cleanText):
strip the fixed chrome phrases (first occurrence repeatedly, per phrase, in
list order), drop a leading Thinking word, remove Pro-thinking prefixes
globally, drop a leading timer token, then collapse whitespace and trim. -/
def cleanText (text : List Char) : List Char :=
  let c1 := stripPhrases text
  let c2 := stripLeadingThinking c1
  let c3 := proThinkRemoveAll c2
  let c4 := stripLeadingTimer c3
  trimWS (collapseWS c4)


/-- One rendered conversation turn, carrying the raw text each extraction
strategy of getLatestResponseText would read from it and the DOM facts
isGenerationComplete inspects: innerText of the turn element, textContent of
its chrome-stripped clone, textContent of a markdown or prose sub-element
when one exists, presence of a copy-turn-action button, and presence of a
thinking or reasoning labelled sub-element. -/
structure Turn where
  innerText : List Char
  strippedText : List Char
  markdownText : Option (List Char)
  hasCopyButton : Bool
  hasThinkingUI : Bool
deriving DecidableEq

/-- Rendered page: the conversation-turn elements in document order and the
innerText of every data-message-author-role assistant region on the page. -/
structure PageState where
  turns : List Turn
  assistantTexts : List (List Char)
deriving DecidableEq

/-- Strategy 4 of getLatestResponseText: the last assistant-authored region
anywhere on the page; returns its cleaned innerText when the raw trimmed
text is nonempty. -/
def strategy4 (p : PageState) : Option (List Char) :=
  match p.assistantTexts.getLast? with
  | none => none
  | some msg =>
    let msgT := trimWS msg
    if !msgT.isEmpty then some (cleanText msgT) else none

/-- The four-strategy extraction cascade of getLatestResponseText
(chatgpt.ts).  Returns none when fewer than two turns exist.  Strategies 1
and 2 return their cleaned text when it is nonempty; strategies 3 and 4 gate
only on the raw trimmed text and return its cleaning. -/
def getLatestResponseText (p : PageState) : Option (List Char) :=
  if p.turns.length < 2 then none
  else
    match p.turns.getLast? with
    | none => none
    | some lastTurn =>
      let innerT := trimWS lastTurn.innerText
      let cleaned1 := cleanText innerT
      if !innerT.isEmpty && !cleaned1.isEmpty then some cleaned1
      else
        let strippedT := trimWS lastTurn.strippedText
        let cleaned2 := cleanText strippedT
        if !strippedT.isEmpty && !cleaned2.isEmpty then some cleaned2
        else
          match lastTurn.markdownText with
          | some md =>
            let mdT := trimWS md
            if !mdT.isEmpty then some (cleanText mdT) else strategy4 p
          | none => strategy4 p

/-- JS word character, for the \b boundaries of /\b(thinking|reasoning)\b/i. -/
def isWordChar (c : Char) : Bool :=
  c.isAlphanum || c == '_'

/-- A word boundary before the match: start of text or a non-word character
(the two pattern words start with a word character). -/
def boundaryOk : Option Char → Bool
  | none => true
  | some c => !(isWordChar c)

/-- The pattern word matches here (case-insensitively) and is followed by a
word boundary. -/
def matchHere (pat t : List Char) : Bool :=
  match ciStart pat t with
  | none => false
  | some rest =>
    match rest with
    | [] => true
    | d :: _ => !(isWordChar d)

/-- Scan for a word-bounded case-insensitive occurrence, tracking the
previous character. -/
def wbGo (pat : List Char) : Option Char → List Char → Bool
  | _, [] => false
  | prev, c :: rest =>
    (boundaryOk prev && matchHere pat (c :: rest)) || wbGo pat (some c) rest

def wordBoundaryOccurs (pat t : List Char) : Bool :=
  wbGo pat none t

def reasoningWord : List Char := "reasoning".data

/-- Model of /\b(thinking|reasoning)\b/i.test(turnText). -/
def thinkingPatternTest (t : List Char) : Bool :=
  wordBoundaryOccurs thinkingLower t || wordBoundaryOccurs reasoningWord t

/-- The lastTurnHasCopy indicator of isGenerationComplete: set only when at
least two turns exist, from a copy-button query scoped to the last turn. -/
def lastTurnHasCopy (p : PageState) : Bool :=
  match p.turns.getLast? with
  | none => false
  | some t => decide (2 ≤ p.turns.length) && t.hasCopyButton

/-- The isThinking indicator of isGenerationComplete: set only when at least
two turns exist, from thinking-labelled sub-elements of the last turn or a
short last-turn text matching the thinking pattern. -/
def isThinkingOf (p : PageState) : Bool :=
  match p.turns.getLast? with
  | none => false
  | some t =>
    decide (2 ≤ p.turns.length) &&
      (t.hasThinkingUI || (thinkingPatternTest t.innerText && decide (t.innerText.length < 200)))

structure CompletionResult where
  complete : Bool
  contentLength : Nat
  newStableCount : Nat
deriving DecidableEq

def FALLBACK_STABLE_THRESHOLD : Nat := 10

/-- The completion detector isGenerationComplete (chatgpt.ts): reads the
page indicators and the current extraction, updates the stability counter,
and decides completion by the primary copy-button rule or the conservative
stability fallback. -/
def isGenerationComplete (p : PageState) (lastContentLength stableCount : Nat) :
    CompletionResult :=
  let currentLength := ((getLatestResponseText p).getD []).length
  let newStableCount :=
    if decide (0 < currentLength) && (currentLength == lastContentLength)
    then stableCount + 1 else 0
  let highConfidence :=
    (lastTurnHasCopy p && decide (0 < currentLength) && decide (1 ≤ newStableCount)) ||
    (!isThinkingOf p && decide (0 < currentLength) &&
      decide (FALLBACK_STABLE_THRESHOLD ≤ newStableCount))
  ⟨highConfidence, currentLength, newStableCount⟩

-- The backoff schedule (utils/backoff.ts).

def FIB_DELAYS : List Nat := [2, 3, 5, 8, 13, 21, 30]

/-- fibonacciBackoff (utils/backoff.ts): delay in milliseconds for a poll
number, from the fixed sequence clamped at its last entry and capped by
maxSeconds (the callers use the default cap of 30). -/
def fibonacciBackoff (pollNumber maxSeconds : Nat) : Nat :=
  let index := min pollNumber (FIB_DELAYS.length - 1)
  let seconds := min (FIB_DELAYS.getD index 0) maxSeconds
  seconds * 1000

theorem fibonacciBackoff_pos (n : Nat) : 0 < fibonacciBackoff n 30 := by
  have h6 : min n 6 ≤ 6 := Nat.min_le_right n 6
  unfold fibonacciBackoff
  simp only [FIB_DELAYS]
  interval_cases h : min n 6 <;> simp [h]

-- The blocking poll loop (chatgpt.ts, pollUntilComplete).

structure PollSuccess where
  response : List Char
  pollCount : Nat
  elapsedSeconds : Nat
deriving DecidableEq

/-- The message of the Error thrown by pollUntilComplete at the deadline. -/
def timeoutMessage (timeoutMinutes elapsedSeconds : Nat) : String :=
  "Timeout after " ++ toString timeoutMinutes ++ " minutes (" ++
    toString elapsedSeconds ++ "s). Response may still be generating."

/-- The while loop of pollUntilComplete.  The environment maps each poll
iteration to the page observed there; time is advanced exactly by the sleeps
(the page evaluations are modelled as instantaneous), and elapsed seconds
are floored as in the source. -/
def pollLoop (env : Nat → PageState) (timeoutMinutes deadline t pollCount lastLen stable : Nat) :
    Except String PollSuccess :=
  if h : t < deadline then
    let waitMs := fibonacciBackoff pollCount 30
    let r := isGenerationComplete (env pollCount) lastLen stable
    if r.complete then
      Except.ok ⟨(getLatestResponseText (env pollCount)).getD [],
        pollCount + 1, (t + waitMs) / 1000⟩
    else
      pollLoop env timeoutMinutes deadline (t + waitMs) (pollCount + 1)
        r.contentLength r.newStableCount
  else
    Except.error (timeoutMessage timeoutMinutes (t / 1000))
termination_by deadline - t
decreasing_by
  have hp := fibonacciBackoff_pos pollCount
  omega

/-- pollUntilComplete (chatgpt.ts): poll with backoff from a zero clock until
the detector reports completion or the minute deadline passes, in which case
the timeout Error is thrown. -/
def pollUntilComplete (env : Nat → PageState) (timeoutMinutes : Nat) :
    Except String PollSuccess :=
  pollLoop env timeoutMinutes (timeoutMinutes * 60 * 1000) 0 0 0 0

-- Session state and the blocking tools (chatgpt.ts, types.ts).

structure SessionState where
  isLoggedIn : Bool
  currentModel : Option String
  conversationId : Option String
  currentProjectUrl : Option String
deriving DecidableEq

structure AskResult where
  response : List Char
  elapsed_seconds : Nat
  model : Option String
  chat_id : Option String
  poll_count : Nat
  error : Option String
deriving DecidableEq

/-- blockingAsk (chatgpt.ts) around its poll phase: session initialization,
project and model switching and the prompt send are modelled as having
succeeded (the claim under study conditions on the poll loop reaching the
deadline, which presupposes exactly that); the try/catch converts the thrown
timeout Error into a structured result. -/
def blockingAsk (env : Nat → PageState) (st : SessionState) (timeoutMinutes : Nat) :
    AskResult :=
  match pollUntilComplete env timeoutMinutes with
  | Except.ok r =>
    ⟨r.response, r.elapsedSeconds, st.currentModel, st.conversationId, r.pollCount, none⟩
  | Except.error msg => ⟨[], 0, none, none, 0, some msg⟩

/-- blockingReply (chatgpt.ts): same poll phase and catch shape as
blockingAsk, with no project or model switching. -/
def blockingReply (env : Nat → PageState) (st : SessionState) (timeoutMinutes : Nat) :
    AskResult :=
  match pollUntilComplete env timeoutMinutes with
  | Except.ok r =>
    ⟨r.response, r.elapsedSeconds, st.currentModel, st.conversationId, r.pollCount, none⟩
  | Except.error msg => ⟨[], 0, none, none, 0, some msg⟩

/-- uploadFiles (chatgpt.ts) around its poll phase: the attach, file-chooser
and send steps are modelled as having succeeded; the catch shape is the same
as blockingAsk. -/
def uploadFiles (env : Nat → PageState) (st : SessionState) (timeoutMinutes : Nat) :
    AskResult :=
  match pollUntilComplete env timeoutMinutes with
  | Except.ok r =>
    ⟨r.response, r.elapsedSeconds, st.currentModel, st.conversationId, r.pollCount, none⟩
  | Except.error msg => ⟨[], 0, none, none, 0, some msg⟩

/-- The state update of newConversation (chatgpt.ts): the only session-state
mutation of the operation is clearing the conversation identifier. -/
def newConversationUpdate (st : SessionState) : SessionState :=
  { st with conversationId := none }

def chatgptUrl : String := "https://chatgpt.com"
def httpScheme : String := "http"

/-- URL completion of selectProject (chatgpt.ts). -/
def fullProjectUrl (projectUrl : String) : String :=
  if projectUrl.startsWith httpScheme then projectUrl else chatgptUrl ++ projectUrl

/-- The state update of selectProject (chatgpt.ts), given the project link
discovered in the sidebar (none when not found): on success the destination
is set and the conversation identifier cleared; on failure the state is
unchanged.  The boolean is the success flag of the returned SimpleResult. -/
def selectProjectUpdate (st : SessionState) (foundHref : Option String) :
    SessionState × Bool :=
  match foundHref with
  | none => (st, false)
  | some href =>
    ({ st with currentProjectUrl := some (fullProjectUrl href), conversationId := none }, true)

-- The option matching tiers of selectModel (chatgpt.ts).

def toLowerList (t : List Char) : List Char :=
  t.map Char.toLower

/-- First option whose lowercased label equals the target. -/
def findExact (tl : List Char) : List (List Char) → Option (List Char)
  | [] => none
  | o :: rest => if toLowerList o == tl then some o else findExact tl rest

/-- First option whose lowercased label starts with the target. -/
def findStarts (tl : List Char) : List (List Char) → Option (List Char)
  | [] => none
  | o :: rest => if tl.isPrefixOf (toLowerList o) then some o else findStarts tl rest

/-- First option whose lowercased label contains the target. -/
def findContainsM (tl : List Char) : List (List Char) → Option (List Char)
  | [] => none
  | o :: rest => if occursIn tl (toLowerList o) then some o else findContainsM tl rest

/-- The match-and-click phase of selectModel (chatgpt.ts): the caller target
is lowercased and trimmed, then the discovered normalized labels are scanned
in three tiers — exact, then startsWith, then includes — clicking the first
match of the first nonempty tier. -/
def selectModelMatch (options : List (List Char)) (target : List Char) :
    Option (List Char) :=
  let tl := trimWS (toLowerList target)
  match findExact tl options with
  | some o => some o
  | none =>
    match findStarts tl options with
    | some o => some o
    | none => findContainsM tl options

-- ============================================================
-- Spec-side definitions (stated from the specification's words, to be
-- compared against the embedded source definitions above).
-- ============================================================

/-- The stability update exactly as the source writes it inline in
isGenerationComplete, as a function of previous length, previous stable
count and current length. -/
def stableUpdate (lastLen stable current : Nat) : Nat :=
  if decide (0 < current) && (current == lastLen) then stable + 1 else 0

/-- The stability update as the specification words it: the new stable count
equals the previous count plus one if the current length is positive and
equal to the previous length, and zero otherwise. -/
def specStableUpdate (lastLen stable current : Nat) : Nat :=
  if 0 < current ∧ current = lastLen then stable + 1 else 0

/-- Successive stable counts produced by feeding a sequence of extracted
lengths through the update, starting from length zero and count zero. -/
def stableSeqAux : Nat → Nat → List Nat → List Nat
  | _, _, [] => []
  | lastLen, stable, c :: rest =>
    let ns := stableUpdate lastLen stable c
    ns :: stableSeqAux c ns rest

def stableSeq (lens : List Nat) : List Nat :=
  stableSeqAux 0 0 lens

/-- Strategy 1 as the amended claim describes it: the cleaned last-turn
visible text, when nonempty. -/
def specStrat1 (t : Turn) : Option (List Char) :=
  if trimWS t.innerText ≠ [] ∧ cleanText (trimWS t.innerText) ≠ [] then
    some (cleanText (trimWS t.innerText))
  else none

/-- Strategy 2 as the amended claim describes it: the cleaned text of the
chrome-stripped clone, when nonempty. -/
def specStrat2 (t : Turn) : Option (List Char) :=
  if trimWS t.strippedText ≠ [] ∧ cleanText (trimWS t.strippedText) ≠ [] then
    some (cleanText (trimWS t.strippedText))
  else none

/-- Strategy 3 as the amended claim describes it: when a formatted-content
sub-region exists and its raw trimmed text is nonempty, its cleaning is
returned even when that cleaning is empty. -/
def specStrat3 (t : Turn) : Option (List Char) :=
  match t.markdownText with
  | none => none
  | some md => if trimWS md ≠ [] then some (cleanText (trimWS md)) else none

/-- Strategy 4 as the amended claim describes it: when an assistant-authored
region exists anywhere on the page and the last one's raw trimmed text is
nonempty, its cleaning is returned even when that cleaning is empty. -/
def specStrat4 (p : PageState) : Option (List Char) :=
  match p.assistantTexts.getLast? with
  | none => none
  | some m => if trimWS m ≠ [] then some (cleanText (trimWS m)) else none

/-- The extraction cascade as the amended claim describes it: absent for
pages of fewer than two turns, otherwise the first applicable strategy in
fixed order. -/
def cascadeSpec (p : PageState) : Option (List Char) :=
  if p.turns.length < 2 then none
  else
    match p.turns.getLast? with
    | none => none
    | some t =>
      (specStrat1 t).orElse fun _ =>
        (specStrat2 t).orElse fun _ =>
          (specStrat3 t).orElse fun _ => specStrat4 p

-- ============================================================
-- Chrome-freeness: the syntactic condition under which one cleaning pass
-- leaves a text untouched.
-- ============================================================

/-- No position of the text starts a /Pro\s+thinking\s*•?\s*\/gi match. -/
def proThinkingFreeAux : List Char → Bool
  | [] => true
  | c :: rest => (tryProThinking (c :: rest)).isNone && proThinkingFreeAux rest

def proThinkingFree (t : List Char) : Bool :=
  proThinkingFreeAux t

/-- The text contains none of the chrome phrases, no leading Thinking word,
no Pro-thinking pattern occurrence and no leading timer token: every
replacement step of cleanText leaves it unchanged. -/
def chromeFree (t : List Char) : Bool :=
  phrasesToRemove.all (fun p => !(occursIn p t)) &&
  (ciStart thinkingWord t).isNone &&
  proThinkingFree t &&
  !(timerMatches t)

/-- Adjacent-pair wellformedness of whitespace after collapsing: a
whitespace character must be a plain space not followed by whitespace. -/
def canonHead (c : Char) : Option Char → Bool
  | none => !(isWS c) || (c == ' ')
  | some d => !(isWS c) || ((c == ' ') && !(isWS d))

/-- Every whitespace character is a single plain space. -/
def canonWS : List Char → Bool
  | [] => true
  | c :: rest => canonHead c rest.head? && canonWS rest

-- ============================================================
-- Concrete fixtures for witnesses and counterexamples.
-- ============================================================

def helloChars : List Char := "hello".data
def helloWorldChars : List Char := "hello world".data
def thinkingDots : List Char := "Thinking...".data
def chatgptTwoSpaces : List Char := "ChatGPT  said".data

/-- A finished answer turn: visible text, copy button present. -/
def turnDone : Turn :=
  { innerText := helloChars, strippedText := helloChars, markdownText := none,
    hasCopyButton := true, hasThinkingUI := false }

/-- A user turn with no signals. -/
def turnUser : Turn :=
  { innerText := [], strippedText := [], markdownText := none,
    hasCopyButton := false, hasThinkingUI := false }

/-- An earlier, already finished answer turn carrying the copy marker. -/
def turnEarlierDone : Turn :=
  { innerText := helloChars, strippedText := helloChars, markdownText := none,
    hasCopyButton := true, hasThinkingUI := false }

/-- A freshly streaming last turn: no copy marker yet. -/
def turnStreaming : Turn :=
  { innerText := helloChars, strippedText := helloChars, markdownText := none,
    hasCopyButton := false, hasThinkingUI := false }

/-- A last turn whose every text source cleans to nothing, but whose
markdown region has nonempty raw text. -/
def turnChromeOnly : Turn :=
  { innerText := [], strippedText := [], markdownText := some thinkingDots,
    hasCopyButton := false, hasThinkingUI := false }

def pageDone : PageState := { turns := [turnUser, turnDone], assistantTexts := [] }

def pageEarlierMarker : PageState :=
  { turns := [turnEarlierDone, turnStreaming], assistantTexts := [] }

def pageChromeOnly : PageState :=
  { turns := [turnUser, turnChromeOnly], assistantTexts := [] }

def pageOneTurn : PageState :=
  { turns := [turnDone], assistantTexts := [helloChars] }

def emptyPage : PageState := { turns := [], assistantTexts := [] }

def constEmptyEnv : Nat → PageState := fun _ => emptyPage

def stExample : SessionState :=
  { isLoggedIn := true, currentModel := none, conversationId := none,
    currentProjectUrl := none }


-- ============================================================
-- Helper lemmas.
-- ============================================================

theorem completion_rule (p : PageState) (L S : Nat) :
    (isGenerationComplete p L S).complete = true ↔
      ((lastTurnHasCopy p = true ∧ 0 < (isGenerationComplete p L S).contentLength ∧
          1 ≤ (isGenerationComplete p L S).newStableCount) ∨
        (isThinkingOf p = false ∧ 0 < (isGenerationComplete p L S).contentLength ∧
          FALLBACK_STABLE_THRESHOLD ≤ (isGenerationComplete p L S).newStableCount)) := by
  unfold isGenerationComplete
  simp only [Bool.or_eq_true, Bool.and_eq_true, decide_eq_true_eq, Bool.not_eq_true']
  tauto

theorem nonempty_and_bool (l m : List Char) :
    (!l.isEmpty && !m.isEmpty) = true ↔ l ≠ [] ∧ m ≠ [] := by
  cases l <;> cases m <;> simp

theorem nonempty_bool (l : List Char) :
    (!l.isEmpty) = true ↔ l ≠ [] := by
  cases l <;> simp

theorem strategy4_eq_spec (p : PageState) : strategy4 p = specStrat4 p := by
  unfold strategy4 specStrat4
  cases p.assistantTexts.getLast? with
  | none => rfl
  | some m => cases htm : trimWS m <;> simp [htm]

theorem extract_eq_cascade (p : PageState) :
    getLatestResponseText p = cascadeSpec p := by
  unfold getLatestResponseText cascadeSpec
  by_cases hlen : p.turns.length < 2
  · simp [hlen]
  · simp only [if_neg hlen]
    cases hgl : p.turns.getLast? with
    | none => rfl
    | some t =>
      dsimp only
      unfold specStrat1 specStrat2 specStrat3
      by_cases h1 : trimWS t.innerText ≠ [] ∧ cleanText (trimWS t.innerText) ≠ []
      · rw [if_pos ((nonempty_and_bool _ _).mpr h1), if_pos h1, Option.some_orElse']
      · rw [if_neg (fun hb => h1 ((nonempty_and_bool _ _).mp hb)), if_neg h1,
          Option.none_orElse']
        by_cases h2 : trimWS t.strippedText ≠ [] ∧ cleanText (trimWS t.strippedText) ≠ []
        · rw [if_pos ((nonempty_and_bool _ _).mpr h2), if_pos h2, Option.some_orElse']
        · rw [if_neg (fun hb => h2 ((nonempty_and_bool _ _).mp hb)), if_neg h2,
            Option.none_orElse']
          cases hmd : t.markdownText with
          | none =>
            rw [Option.none_orElse', strategy4_eq_spec]
          | some md =>
            dsimp only
            by_cases h3 : trimWS md ≠ []
            · rw [if_pos ((nonempty_bool _).mpr h3), if_pos h3, Option.some_orElse']
            · rw [if_neg (fun hb => h3 ((nonempty_bool _).mp hb)), if_neg h3,
                Option.none_orElse', strategy4_eq_spec]

-- Whitespace canonical-form lemmas for the final collapse-and-trim step.

theorem canonWS_cons (c : Char) (l : List Char) :
    canonWS (c :: l) = (canonHead c l.head? && canonWS l) := rfl

theorem canonHead_of_not_ws (c : Char) (o : Option Char) (h : isWS c = false) :
    canonHead c o = true := by
  cases o <;> simp [canonHead, h]

theorem canonHead_none_of (c : Char) (o : Option Char) (h : canonHead c o = true) :
    canonHead c none = true := by
  cases o with
  | none => exact h
  | some d =>
    cases hc : isWS c <;> simp [canonHead, hc] at h ⊢
    exact h.1

theorem collapseWS_cons_of_not_ws (d : Char) (rest : List Char) (h : isWS d = false) :
    collapseWS (d :: rest) = d :: (collapseWS (d :: rest)).tail := by
  cases rest with
  | nil => simp [collapseWS, h]
  | cons e res => simp [collapseWS, h]

theorem canonWS_collapseWS (t : List Char) : canonWS (collapseWS t) = true := by
  induction t with
  | nil => rfl
  | cons c rest ih =>
    cases rest with
    | nil =>
      by_cases hc : isWS c = true
      · simp [collapseWS, hc, canonWS, canonHead]
      · simp only [Bool.not_eq_true] at hc
        simp [collapseWS, hc, canonWS, canonHead_of_not_ws c none hc]
    | cons d rest2 =>
      by_cases hc : isWS c = true
      · by_cases hd : isWS d = true
        · simpa [collapseWS, hc, hd] using ih
        · simp only [Bool.not_eq_true] at hd
          have hh := collapseWS_cons_of_not_ws d rest2 hd
          simp only [collapseWS, hc, hd, Bool.false_eq_true, if_false, if_true]
          rw [hh, canonWS_cons]
          rw [hh] at ih
          simp [canonHead, hd, ih]
      · simp only [Bool.not_eq_true] at hc
        simp only [collapseWS, hc, Bool.false_eq_true, if_false]
        rw [canonWS_cons]
        simp [canonHead_of_not_ws c _ hc, ih]

theorem canonWS_tail (c : Char) (l : List Char) (h : canonWS (c :: l) = true) :
    canonWS l = true := by
  rw [canonWS_cons, Bool.and_eq_true] at h
  exact h.2

theorem canonWS_dropWhile (l : List Char) (h : canonWS l = true) :
    canonWS (l.dropWhile isWS) = true := by
  induction l with
  | nil => exact h
  | cons c rest ih =>
    by_cases hc : isWS c = true
    · rw [List.dropWhile_cons_of_pos hc]
      exact ih (canonWS_tail c rest h)
    · simp only [Bool.not_eq_true] at hc
      rw [List.dropWhile_cons_of_neg (by simp [hc])]
      exact h

theorem dropTrailingWS_head (l : List Char) :
    dropTrailingWS l = [] ∨ (dropTrailingWS l).head? = l.head? := by
  cases l with
  | nil => exact Or.inl rfl
  | cons c rest =>
    simp only [dropTrailingWS]
    by_cases h : (dropTrailingWS rest = [] && isWS c) = true
    · rw [if_pos h]
      exact Or.inl rfl
    · rw [if_neg h]
      exact Or.inr rfl

theorem canonWS_dropTrailingWS (l : List Char) (h : canonWS l = true) :
    canonWS (dropTrailingWS l) = true := by
  induction l with
  | nil => exact h
  | cons c rest ih =>
    have hrest := ih (canonWS_tail c rest h)
    rw [canonWS_cons, Bool.and_eq_true] at h
    simp only [dropTrailingWS]
    by_cases hif : (dropTrailingWS rest = [] && isWS c) = true
    · rw [if_pos hif]
      rfl
    · rw [if_neg hif]
      rw [canonWS_cons, Bool.and_eq_true]
      refine ⟨?_, hrest⟩
      rcases dropTrailingWS_head rest with he | hh
      · rw [he]
        exact canonHead_none_of c rest.head? h.1
      · rw [hh]
        exact h.1

theorem dropTrailingWS_last (l : List Char) (c : Char)
    (h : (dropTrailingWS l).getLast? = some c) : isWS c = false := by
  induction l with
  | nil => simp [dropTrailingWS] at h
  | cons a rest ih =>
    simp only [dropTrailingWS] at h
    by_cases hif : (dropTrailingWS rest = [] && isWS a) = true
    · rw [if_pos hif] at h
      simp at h
    · rw [if_neg hif] at h
      cases hr : dropTrailingWS rest with
      | nil =>
        rw [hr] at h
        simp only [List.getLast?_singleton, Option.some.injEq] at h
        subst h
        simp [hr] at hif
        simpa using hif
      | cons b bs =>
        rw [hr, List.getLast?_cons_cons] at h
        rw [← hr] at h
        exact ih h

theorem collapseWS_of_canon (l : List Char) (h : canonWS l = true) :
    collapseWS l = l := by
  induction l with
  | nil => rfl
  | cons c rest ih =>
    have hrest := ih (canonWS_tail c rest h)
    rw [canonWS_cons, Bool.and_eq_true] at h
    cases rest with
    | nil =>
      by_cases hc : isWS c = true
      · have hsp : c = ' ' := by
          have h1 := h.1
          simp [canonHead, hc] at h1
          exact h1
        simp [collapseWS, hc, hsp]
      · simp only [Bool.not_eq_true] at hc
        simp [collapseWS, hc]
    | cons d rest2 =>
      by_cases hc : isWS c = true
      · have h1 := h.1
        simp only [List.head?_cons, canonHead, hc, Bool.not_true, Bool.false_or,
          Bool.and_eq_true, beq_iff_eq, Bool.not_eq_true'] at h1
        simp [collapseWS, hc, h1.2, hrest, h1.1]
      · simp only [Bool.not_eq_true] at hc
        simp [collapseWS, hc, hrest]

/-- Head of the list is absent or not whitespace. -/
def headNotWS (l : List Char) : Bool :=
  match l with
  | [] => true
  | c :: _ => !(isWS c)

theorem headNotWS_dropWhile (l : List Char) :
    headNotWS (l.dropWhile isWS) = true := by
  induction l with
  | nil => rfl
  | cons c rest ih =>
    by_cases hc : isWS c = true
    · rw [List.dropWhile_cons_of_pos hc]
      exact ih
    · simp only [Bool.not_eq_true] at hc
      rw [List.dropWhile_cons_of_neg (by simp [hc])]
      simp [headNotWS, hc]

theorem headNotWS_dropTrailingWS (l : List Char) (h : headNotWS l = true) :
    headNotWS (dropTrailingWS l) = true := by
  rcases dropTrailingWS_head l with he | hh
  · rw [he]
    rfl
  · cases hl : dropTrailingWS l with
    | nil => rfl
    | cons c rest =>
      rw [hl] at hh
      simp only [List.head?_cons] at hh
      cases l with
      | nil => simp [dropTrailingWS] at hl
      | cons a as =>
        simp only [List.head?_cons, Option.some.injEq] at hh
        subst hh
        simpa [headNotWS] using h

theorem dropWhile_of_headNotWS (l : List Char) (h : headNotWS l = true) :
    l.dropWhile isWS = l := by
  cases l with
  | nil => rfl
  | cons c rest =>
    simp only [headNotWS, Bool.not_eq_true'] at h
    rw [List.dropWhile_cons_of_neg (by simp [h])]

theorem dropTrailingWS_cons (c : Char) (rest : List Char) :
    dropTrailingWS (c :: rest) =
      if dropTrailingWS rest = [] && isWS c then [] else c :: dropTrailingWS rest := rfl

theorem dropTrailingWS_of_last (l : List Char)
    (h : ∀ c, l.getLast? = some c → isWS c = false) : dropTrailingWS l = l := by
  induction l with
  | nil => rfl
  | cons a rest ih =>
    cases rest with
    | nil =>
      have ha := h a (by simp)
      simp [dropTrailingWS_cons, dropTrailingWS, ha]
    | cons b bs =>
      have hrest : dropTrailingWS (b :: bs) = b :: bs := by
        apply ih
        intro c hc
        exact h c (by rw [List.getLast?_cons_cons]; exact hc)
      rw [dropTrailingWS_cons, hrest]
      simp

theorem trimWS_of_fixed (l : List Char) (h1 : headNotWS l = true)
    (h2 : ∀ c, l.getLast? = some c → isWS c = false) : trimWS l = l := by
  unfold trimWS
  rw [dropWhile_of_headNotWS l h1]
  exact dropTrailingWS_of_last l h2

/-- The collapse-then-trim tail of cleanText is idempotent. -/
theorem trim_collapse_idem (t : List Char) :
    trimWS (collapseWS (trimWS (collapseWS t))) = trimWS (collapseWS t) := by
  have hcanon : canonWS (trimWS (collapseWS t)) = true := by
    unfold trimWS
    exact canonWS_dropTrailingWS _ (canonWS_dropWhile _ (canonWS_collapseWS t))
  have hhead : headNotWS (trimWS (collapseWS t)) = true := by
    unfold trimWS
    exact headNotWS_dropTrailingWS _ (headNotWS_dropWhile _)
  have hlast : ∀ c, (trimWS (collapseWS t)).getLast? = some c → isWS c = false := by
    intro c hc
    exact dropTrailingWS_last _ c hc
  rw [collapseWS_of_canon _ hcanon]
  exact trimWS_of_fixed _ hhead hlast

-- Chrome-free texts are untouched by each replacement step of cleanText.

theorem removeAllOcc_of_free (pat l : List Char) (h : occursIn pat l = false) :
    removeAllOcc pat l = l := by
  unfold removeAllOcc
  cases hl : l.length with
  | zero => rfl
  | succ n => simp [removeLoop, h]

theorem foldl_remove_of_free (ps : List (List Char)) (l : List Char)
    (h : ps.all (fun p => !(occursIn p l)) = true) :
    ps.foldl (fun acc p => removeAllOcc p acc) l = l := by
  induction ps with
  | nil => rfl
  | cons p rest ih =>
    simp only [List.all_cons, Bool.and_eq_true, Bool.not_eq_true'] at h
    simp only [List.foldl_cons, removeAllOcc_of_free p l h.1]
    exact ih (by simpa using h.2)

theorem stripPhrases_of_free (l : List Char)
    (h : phrasesToRemove.all (fun p => !(occursIn p l)) = true) :
    stripPhrases l = l :=
  foldl_remove_of_free phrasesToRemove l h

theorem stripLeadingThinking_of_free (l : List Char)
    (h : (ciStart thinkingWord l).isNone = true) : stripLeadingThinking l = l := by
  unfold stripLeadingThinking
  cases hc : ciStart thinkingWord l with
  | none => rfl
  | some r => rw [hc] at h; simp at h

theorem proThinkLoop_of_free (l : List Char) (h : proThinkingFreeAux l = true) :
    ∀ n, proThinkLoop n l = l := by
  induction l with
  | nil => intro n; cases n <;> rfl
  | cons c rest ih =>
    intro n
    simp only [proThinkingFreeAux, Bool.and_eq_true, Option.isNone_iff_eq_none] at h
    cases n with
    | zero => rfl
    | succ m =>
      simp only [proThinkLoop, h.1]
      rw [ih (by simpa [proThinkingFreeAux] using h.2) m]

theorem proThinkRemoveAll_of_free (l : List Char) (h : proThinkingFree l = true) :
    proThinkRemoveAll l = l :=
  proThinkLoop_of_free l h l.length

theorem stripLeadingTimer_of_free (l : List Char) (h : timerMatches l = false) :
    stripLeadingTimer l = l := by
  unfold stripLeadingTimer
  unfold timerMatches at h
  cases hc : timerTail l with
  | none => rfl
  | some r => rw [hc] at h; simp at h

/-- A chrome-free text in collapsed-and-trimmed form is a fixed point of the
cleaning pass. -/
theorem cleanText_fixed_of_chromeFree (l : List Char) (h : chromeFree l = true)
    (hn : trimWS (collapseWS l) = l) : cleanText l = l := by
  unfold chromeFree at h
  simp only [Bool.and_eq_true, Bool.not_eq_true'] at h
  obtain ⟨⟨⟨h1, h2⟩, h3⟩, h4⟩ := h
  unfold cleanText
  dsimp only
  rw [stripPhrases_of_free l h1, stripLeadingThinking_of_free l h2,
    proThinkRemoveAll_of_free l h3, stripLeadingTimer_of_free l h4]
  exact hn

theorem cleanText_norm (x : List Char) :
    cleanText x =
      trimWS (collapseWS
        (stripLeadingTimer (proThinkRemoveAll (stripLeadingThinking (stripPhrases x))))) := rfl

/-- The output of cleanText is always in collapsed-and-trimmed form. -/
theorem cleanText_trim_collapse (x : List Char) :
    trimWS (collapseWS (cleanText x)) = cleanText x := by
  rw [cleanText_norm x]
  exact trim_collapse_idem _

theorem pollLoop_never_completes (env : Nat → PageState) (tm deadline : Nat)
    (h : ∀ i L S, (isGenerationComplete (env i) L S).complete = false) :
    ∀ n t pc lastLen stable, deadline - t ≤ n →
      ∃ e, pollLoop env tm deadline t pc lastLen stable =
          Except.error (timeoutMessage tm e) ∧ deadline / 1000 ≤ e := by
  intro n
  induction n with
  | zero =>
    intro t pc lastLen stable hle
    have ht : ¬ t < deadline := by omega
    rw [pollLoop, dif_neg ht]
    exact ⟨t / 1000, rfl, Nat.div_le_div_right (by omega)⟩
  | succ m ih =>
    intro t pc lastLen stable hle
    by_cases ht : t < deadline
    · rw [pollLoop, dif_pos ht]
      have hc := h pc lastLen stable
      simp only [hc, Bool.false_eq_true, if_false]
      apply ih
      have hp := fibonacciBackoff_pos pc
      omega
    · rw [pollLoop, dif_neg ht]
      exact ⟨t / 1000, rfl, Nat.div_le_div_right (by omega)⟩

theorem findExact_eq_find (tl : List Char) (opts : List (List Char)) :
    findExact tl opts = opts.find? (fun o => toLowerList o == tl) := by
  induction opts with
  | nil => rfl
  | cons o rest ih =>
    by_cases h : (toLowerList o == tl) = true <;>
      simp [findExact, List.find?_cons, h, ih]

theorem findStarts_eq_find (tl : List Char) (opts : List (List Char)) :
    findStarts tl opts = opts.find? (fun o => tl.isPrefixOf (toLowerList o)) := by
  induction opts with
  | nil => rfl
  | cons o rest ih =>
    by_cases h : tl.isPrefixOf (toLowerList o) = true <;>
      simp [findStarts, List.find?_cons, h, ih]

theorem findContainsM_eq_find (tl : List Char) (opts : List (List Char)) :
    findContainsM tl opts = opts.find? (fun o => occursIn tl (toLowerList o)) := by
  induction opts with
  | nil => rfl
  | cons o rest ih =>
    by_cases h : occursIn tl (toLowerList o) = true <;>
      simp [findContainsM, List.find?_cons, h, ih]

-- Concrete option labels for the C7 example.
def gpt5Instant : List Char := "GPT-5 Instant".data
def gpt5Thinking : List Char := "GPT-5 Thinking".data
def gpt5Pro : List Char := "GPT-5 Pro".data
def proTarget : List Char := "pro".data

/-- The backoff values the claim lists for iterations zero to seven. -/
def claimedDelays : List Nat := [2, 3, 5, 8, 13, 21, 30, 30]

-- ============================================================
-- Claim theorems.
-- ============================================================

/-- Claim C1: the completion flag of the detector holds if and only if the
primary rule (completion marker in the last turn, positive extracted length,
updated stable count at least one) or the fallback rule (not thinking,
positive extracted length, updated stable count at least the fallback
threshold) fires; the fallback threshold is ten, materially larger than the
primary threshold of one, and while the thinking indicator is set only the
primary rule can report completion. -/
theorem c1_completion_decision :
    (∀ p L S, (isGenerationComplete p L S).complete = true ↔
      ((lastTurnHasCopy p = true ∧ 0 < (isGenerationComplete p L S).contentLength ∧
          1 ≤ (isGenerationComplete p L S).newStableCount) ∨
        (isThinkingOf p = false ∧ 0 < (isGenerationComplete p L S).contentLength ∧
          FALLBACK_STABLE_THRESHOLD ≤ (isGenerationComplete p L S).newStableCount))) ∧
    FALLBACK_STABLE_THRESHOLD = 10 ∧ 1 < FALLBACK_STABLE_THRESHOLD ∧
    (∀ p L S, isThinkingOf p = true → (isGenerationComplete p L S).complete = true →
      lastTurnHasCopy p = true ∧ 0 < (isGenerationComplete p L S).contentLength ∧
        1 ≤ (isGenerationComplete p L S).newStableCount) := by
  refine ⟨completion_rule, rfl, by decide, ?_⟩
  intro p L S hth hc
  rcases (completion_rule p L S).mp hc with h | h
  · exact h
  · rw [hth] at h
    exact absurd h.1 (by simp)

theorem c1_completion_decision_witness :
    (isGenerationComplete pageDone 5 0).complete = true :=
  (c1_completion_decision.1 pageDone 5 0).mpr
    (Or.inl ⟨by decide, by decide, by decide⟩)

/-- Claim C2: on any page whose most recent turn carries no completion
marker (earlier turns may carry one), the lastTurnHasCopy indicator is false
and completion can only be reported through the stability fallback — the
marker search is scoped to the last turn, never page-wide. -/
theorem c2_marker_scoped_to_last_turn :
    ∀ p L S, (p.turns.getLast?.all fun t => !t.hasCopyButton) = true →
      lastTurnHasCopy p = false ∧
      ((isGenerationComplete p L S).complete = true →
        isThinkingOf p = false ∧ 0 < (isGenerationComplete p L S).contentLength ∧
          FALLBACK_STABLE_THRESHOLD ≤ (isGenerationComplete p L S).newStableCount) := by
  intro p L S h
  have hcopy : lastTurnHasCopy p = false := by
    unfold lastTurnHasCopy
    cases hgl : p.turns.getLast? with
    | none => rfl
    | some t =>
      rw [hgl] at h
      simp only [Option.all_some, Bool.not_eq_true'] at h
      simp [h]
  refine ⟨hcopy, fun hc => ?_⟩
  rcases (completion_rule p L S).mp hc with hca | hcb
  · rw [hcopy] at hca
    exact absurd hca.1 (by simp)
  · exact hcb

theorem c2_marker_scoped_witness :
    lastTurnHasCopy pageEarlierMarker = false ∧
      ((isGenerationComplete pageEarlierMarker 5 0).complete = true →
        isThinkingOf pageEarlierMarker = false ∧
          0 < (isGenerationComplete pageEarlierMarker 5 0).contentLength ∧
          FALLBACK_STABLE_THRESHOLD ≤
            (isGenerationComplete pageEarlierMarker 5 0).newStableCount) :=
  c2_marker_scoped_to_last_turn pageEarlierMarker 5 0 (by decide)

/-- Claim C3: the detector's stable-count update equals the claimed pure
update (previous count plus one when the current length is positive and
equal to the previous length, zero otherwise), and feeding the length
sequence [0,5,5,5,7,7] through successive updates from zero yields the
stable-count sequence [0,0,1,2,0,1]. -/
theorem c3_stability_update :
    (∀ p L S, (isGenerationComplete p L S).newStableCount =
      stableUpdate L S (isGenerationComplete p L S).contentLength) ∧
    (∀ L S C, stableUpdate L S C = specStableUpdate L S C) ∧
    stableSeq [0, 5, 5, 5, 7, 7] = [0, 0, 1, 2, 0, 1] := by
  refine ⟨fun p L S => rfl, fun L S C => ?_, by decide⟩
  unfold stableUpdate specStableUpdate
  by_cases h : 0 < C ∧ C = L
  · rw [if_pos (show (decide (0 < C) && (C == L)) = true by
      simp only [Bool.and_eq_true, decide_eq_true_eq, beq_iff_eq]; exact h), if_pos h]
  · rw [if_neg ?_, if_neg h]
    intro hb
    simp only [Bool.and_eq_true, decide_eq_true_eq, beq_iff_eq] at hb
    exact h hb

/-- Claim C4 counterexample: cleaning is not idempotent.  On the input
consisting of the word ChatGPT, two spaces and the word said, the first pass
only collapses the whitespace, re-creating the chrome phrase, which the
second pass then removes. -/
theorem c4_not_idempotent :
    cleanText chatgptTwoSpaces = phrase02 ∧
    cleanText (cleanText chatgptTwoSpaces) = [] ∧
    cleanText (cleanText chatgptTwoSpaces) ≠ cleanText chatgptTwoSpaces := by decide

/-- Claim C4 as amended: the cleaning pass is idempotent on every input
whose cleaned form is chrome-free, that is, contains none of the fixed
phrases, no leading Thinking word, no Pro-thinking pattern occurrence and no
leading timer token.  (In general idempotence fails, because whitespace
collapsing in the final step can re-create a chrome phrase.) -/
theorem c4_idempotent_when_chromeFree (x : List Char)
    (h : chromeFree (cleanText x) = true) :
    cleanText (cleanText x) = cleanText x :=
  cleanText_fixed_of_chromeFree (cleanText x) h (cleanText_trim_collapse x)

theorem c4_idempotent_witness :
    cleanText (cleanText helloWorldChars) = cleanText helloWorldChars :=
  c4_idempotent_when_chromeFree helloWorldChars (by decide)

/-- Claim C5 counterexample: on a page whose every strategy yields empty
cleaned text (the last turn's visible and stripped texts are empty, its
markdown region holds only a Thinking label which cleans to nothing, and no
assistant region exists) the extractor returns an empty string, not
absence: strategy 3 gates on raw rather than cleaned text. -/
theorem c5_returns_empty_not_null :
    cleanText (trimWS turnChromeOnly.innerText) = [] ∧
    cleanText (trimWS turnChromeOnly.strippedText) = [] ∧
    turnChromeOnly.markdownText = some thinkingDots ∧
    cleanText (trimWS thinkingDots) = [] ∧
    pageChromeOnly.assistantTexts = [] ∧
    getLatestResponseText pageChromeOnly = some [] ∧
    getLatestResponseText pageChromeOnly ≠ none := by decide

/-- Claim C5 as amended: the extractor evaluates its four strategies in
fixed order; strategies 1 and 2 return their cleaned text when that cleaned
text is nonempty, while strategies 3 and 4 return the cleaned text (possibly
empty) whenever their raw trimmed text is nonempty; absence (null) is
returned exactly when fewer than two turns exist or no strategy's gate
passes. -/
theorem c5_cascade_amended : ∀ p, getLatestResponseText p = cascadeSpec p :=
  extract_eq_cascade

/-- Claim C6: when the detector never reports completion, the poll loop of
blockingAsk, blockingReply and uploadFiles reaches the deadline and each
operation returns a structured result rather than an uncaught failure; the
result's error description identifies a Timeout, carries the elapsed time
(at least the deadline, in seconds) and notes that the response may still be
generating. -/
theorem c6_timeout_structured_result (env : Nat → PageState) (st : SessionState)
    (tm : Nat) (h : ∀ i L S, (isGenerationComplete (env i) L S).complete = false) :
    ∃ e, tm * 60 ≤ e ∧
      pollUntilComplete env tm = Except.error (timeoutMessage tm e) ∧
      blockingAsk env st tm = ⟨[], 0, none, none, 0, some (timeoutMessage tm e)⟩ ∧
      blockingReply env st tm = ⟨[], 0, none, none, 0, some (timeoutMessage tm e)⟩ ∧
      uploadFiles env st tm = ⟨[], 0, none, none, 0, some (timeoutMessage tm e)⟩ ∧
      timeoutMessage tm e = "Timeout after " ++ toString tm ++ " minutes (" ++
        toString e ++ "s). Response may still be generating." := by
  obtain ⟨e, he, hd⟩ := pollLoop_never_completes env tm (tm * 60 * 1000) h
    (tm * 60 * 1000) 0 0 0 0 (by omega)
  have hpu : pollUntilComplete env tm = Except.error (timeoutMessage tm e) := he
  have hde : tm * 60 ≤ e := by
    have h1000 : tm * 60 * 1000 / 1000 = tm * 60 :=
      Nat.mul_div_cancel (tm * 60) (by norm_num)
    omega
  refine ⟨e, hde, hpu, ?_, ?_, ?_, rfl⟩
  · unfold blockingAsk
    rw [hpu]
  · unfold blockingReply
    rw [hpu]
  · unfold uploadFiles
    rw [hpu]

theorem c6_timeout_witness :
    ∃ e, 1 * 60 ≤ e ∧
      pollUntilComplete constEmptyEnv 1 = Except.error (timeoutMessage 1 e) ∧
      blockingAsk constEmptyEnv stExample 1 =
        ⟨[], 0, none, none, 0, some (timeoutMessage 1 e)⟩ ∧
      blockingReply constEmptyEnv stExample 1 =
        ⟨[], 0, none, none, 0, some (timeoutMessage 1 e)⟩ ∧
      uploadFiles constEmptyEnv stExample 1 =
        ⟨[], 0, none, none, 0, some (timeoutMessage 1 e)⟩ ∧
      timeoutMessage 1 e = "Timeout after " ++ toString 1 ++ " minutes (" ++
        toString e ++ "s). Response may still be generating." :=
  c6_timeout_structured_result constEmptyEnv stExample 1 (fun _ _ _ => rfl)

/-- Claim C7: the option matching of selectModel scans the discovered labels
in three tiers with precedence exact, then prefix, then substring (all
case-insensitive, first match of the first applicable tier), and on the
labels GPT-5 Instant, GPT-5 Thinking and GPT-5 Pro with target pro it
selects GPT-5 Pro. -/
theorem c7_option_match_precedence :
    (∀ opts target, selectModelMatch opts target =
      ((opts.find? fun o => toLowerList o == trimWS (toLowerList target)).orElse fun _ =>
        ((opts.find? fun o =>
            (trimWS (toLowerList target)).isPrefixOf (toLowerList o)).orElse fun _ =>
          opts.find? fun o => occursIn (trimWS (toLowerList target)) (toLowerList o)))) ∧
    selectModelMatch [gpt5Instant, gpt5Thinking, gpt5Pro] proTarget = some gpt5Pro := by
  constructor
  · intro opts target
    unfold selectModelMatch
    dsimp only
    rw [findExact_eq_find, findStarts_eq_find, findContainsM_eq_find]
    cases hx : opts.find? fun o => toLowerList o == trimWS (toLowerList target) with
    | some o => rw [Option.some_orElse']
    | none =>
      rw [Option.none_orElse']
      cases hy : opts.find? fun o =>
          (trimWS (toLowerList target)).isPrefixOf (toLowerList o) with
      | some o => rw [Option.some_orElse']
      | none => rw [Option.none_orElse']
  · decide

/-- Claim C8: for iterations zero to seven the backoff delay is the claimed
sequence (in milliseconds per listed second), from iteration six on it is
clamped at thirty seconds, and the function is total and positive on all
iteration numbers. -/
theorem c8_backoff_schedule :
    (∀ n, n < 8 → fibonacciBackoff n 30 = 1000 * claimedDelays.getD n 0) ∧
    (∀ n, 6 ≤ n → fibonacciBackoff n 30 = 30 * 1000) ∧
    (∀ n, 0 < fibonacciBackoff n 30) := by
  refine ⟨?_, ?_, fibonacciBackoff_pos⟩
  · intro n hn
    interval_cases n <;> decide
  · intro n hn
    unfold fibonacciBackoff
    have hmin : min n (FIB_DELAYS.length - 1) = 6 := by
      simp only [FIB_DELAYS, List.length_cons, List.length_nil]
      omega
    rw [hmin]
    decide

theorem c8_backoff_witness :
    fibonacciBackoff 3 30 = 1000 * claimedDelays.getD 3 0 ∧
      fibonacciBackoff 9 30 = 30 * 1000 :=
  ⟨c8_backoff_schedule.1 3 (by decide), c8_backoff_schedule.2.1 9 (by decide)⟩

/-- Claim C9: starting a new conversation clears only the conversation
identifier, preserving destination, login flag and current model; switching
destination (on success) sets the destination, clears the conversation
identifier and leaves login flag and current model unchanged. -/
theorem c9_session_reset_rules :
    (∀ st : SessionState,
      (newConversationUpdate st).conversationId = none ∧
      (newConversationUpdate st).currentProjectUrl = st.currentProjectUrl ∧
      (newConversationUpdate st).isLoggedIn = st.isLoggedIn ∧
      (newConversationUpdate st).currentModel = st.currentModel) ∧
    (∀ (st : SessionState) (href : String),
      (selectProjectUpdate st (some href)).2 = true ∧
      (selectProjectUpdate st (some href)).1.conversationId = none ∧
      (selectProjectUpdate st (some href)).1.currentProjectUrl =
        some (fullProjectUrl href) ∧
      (selectProjectUpdate st (some href)).1.isLoggedIn = st.isLoggedIn ∧
      (selectProjectUpdate st (some href)).1.currentModel = st.currentModel) :=
  ⟨fun _ => ⟨rfl, rfl, rfl, rfl⟩, fun _ _ => ⟨rfl, rfl, rfl, rfl, rfl⟩⟩

/-- Claim C10: on a page with fewer than two conversation-turn regions the
extractor returns absence immediately, before any strategy runs — in
particular even when assistant-authored regions with text exist on the page
(as in the witness fixture). -/
theorem c10_few_turns_null (p : PageState) (h : p.turns.length < 2) :
    getLatestResponseText p = none := by
  unfold getLatestResponseText
  rw [if_pos h]

theorem c10_few_turns_witness : getLatestResponseText pageOneTurn = none :=
  c10_few_turns_null pageOneTurn (by decide)
